import Mathlib

/-!
Verification development for the retail-transaction matrix pipeline.

The Lean definitions below are shallow embeddings of the Python source files:
`clean_up_data.py`, `fill_matrix.py`, `make_matrix.py`, `exctract_items.py`,
`create_batches.py`, `item_transaction_matrix.py`,
`item_transaction_matrix_fixed.py` and `gaussian_random_projection.py`.
Spreadsheet/CSV I/O is modelled as lists of rows; pandas `NaN` cells are
modelled with `Option`; machine floats in the Johnson–Lindenstrauss bound are
modelled over the reals.
-/

namespace Retail

/-! ## Generic association-list and set utilities

These model Python `dict` and `set` operations used throughout the source:
`lookupA` is `d.get(k)`, `updateA`/`setA` is `d[k] = v`, `insertNew` is
`s.add(x)` for a set kept in insertion order, `dedupSet` is the set of
elements of a list (insertion order), modelling `pd.unique` / `set(...)`. -/

def lookupA {κ α : Type} [DecidableEq κ] : List (κ × α) → κ → Option α
  | [], _ => none
  | (k, v) :: d, key => if k = key then some v else lookupA d key

def updateA {κ α : Type} [DecidableEq κ] : List (κ × α) → κ → α → List (κ × α)
  | [], _, _ => []
  | (k, v) :: d, key, w =>
    if k = key then (k, w) :: d else (k, v) :: updateA d key w

def setA {κ α : Type} [DecidableEq κ] (d : List (κ × α)) (k : κ) (v : α) :
    List (κ × α) :=
  if (lookupA d k).isSome then updateA d k v else d ++ [(k, v)]

def insertNew {α : Type} [DecidableEq α] (s : List α) (x : α) : List α :=
  if x ∈ s then s else s ++ [x]

def dedupSet {α : Type} [DecidableEq α] (xs : List α) : List α :=
  xs.foldl insertNew []

theorem lookupA_append {κ α : Type} [DecidableEq κ] (d e : List (κ × α))
    (k : κ) :
    lookupA (d ++ e) k =
      match lookupA d k with
      | some v => some v
      | none => lookupA e k := by
  induction d with
  | nil => simp [lookupA]
  | cons kv d ih =>
    obtain ⟨k1, v1⟩ := kv
    by_cases h : k1 = k <;> simp [lookupA, h, ih]

theorem lookupA_eq_none_iff {κ α : Type} [DecidableEq κ]
    (d : List (κ × α)) (k : κ) :
    lookupA d k = none ↔ k ∉ d.map Prod.fst := by
  induction d with
  | nil => simp [lookupA]
  | cons kv d ih =>
    obtain ⟨k1, v1⟩ := kv
    by_cases h : k1 = k
    · subst h
      simp [lookupA]
    · simp only [lookupA, if_neg h, List.map_cons, List.mem_cons, not_or]
      rw [ih]
      constructor
      · intro hk
        exact ⟨fun he => h he.symm, hk⟩
      · intro hk
        exact hk.2

theorem lookupA_updateA_self {κ α : Type} [DecidableEq κ]
    (d : List (κ × α)) (k : κ) (w : α) (h : (lookupA d k).isSome) :
    lookupA (updateA d k w) k = some w := by
  induction d with
  | nil => simp [lookupA] at h
  | cons kv d ih =>
    obtain ⟨k1, v1⟩ := kv
    by_cases hk : k1 = k
    · simp [lookupA, updateA, hk]
    · simp [lookupA, updateA, hk] at h ⊢
      exact ih h

theorem lookupA_updateA_ne {κ α : Type} [DecidableEq κ]
    (d : List (κ × α)) (k q : κ) (w : α) (h : q ≠ k) :
    lookupA (updateA d k w) q = lookupA d q := by
  induction d with
  | nil => simp [updateA]
  | cons kv d ih =>
    obtain ⟨k1, v1⟩ := kv
    by_cases hk : k1 = k
    · subst hk
      have hq : ¬k1 = q := fun he => h he.symm
      simp [lookupA, updateA, hq]
    · by_cases hq : k1 = q <;> simp [lookupA, updateA, hk, hq, ih, h]

theorem updateA_map_fst {κ α : Type} [DecidableEq κ]
    (d : List (κ × α)) (k : κ) (w : α) :
    (updateA d k w).map Prod.fst = d.map Prod.fst := by
  induction d with
  | nil => simp [updateA]
  | cons kv d ih =>
    obtain ⟨k1, v1⟩ := kv
    by_cases hk : k1 = k <;> simp [updateA, hk, ih]

theorem mem_insertNew {α : Type} [DecidableEq α] (s : List α) (x y : α) :
    y ∈ insertNew s x ↔ y ∈ s ∨ y = x := by
  unfold insertNew
  split <;> rename_i h
  · constructor
    · exact fun hy => Or.inl hy
    · rintro (hy | rfl)
      · exact hy
      · exact h
  · simp

theorem nodup_insertNew {α : Type} [DecidableEq α] (s : List α) (x : α)
    (h : s.Nodup) : (insertNew s x).Nodup := by
  unfold insertNew
  split <;> rename_i hx
  · exact h
  · simpa [List.nodup_append, hx] using h

theorem dedupSet_go_mem {α : Type} [DecidableEq α] (xs : List α)
    (acc : List α) (y : α) :
    y ∈ xs.foldl insertNew acc ↔ y ∈ acc ∨ y ∈ xs := by
  induction xs generalizing acc with
  | nil => simp
  | cons x xs ih => simp [ih, mem_insertNew, or_assoc]

theorem dedupSet_go_nodup {α : Type} [DecidableEq α] (xs : List α)
    (acc : List α) (h : acc.Nodup) : (xs.foldl insertNew acc).Nodup := by
  induction xs generalizing acc with
  | nil => simpa
  | cons x xs ih => exact ih _ (nodup_insertNew _ _ h)

theorem mem_dedupSet {α : Type} [DecidableEq α] (xs : List α) (y : α) :
    y ∈ dedupSet xs ↔ y ∈ xs := by
  simp [dedupSet, dedupSet_go_mem]

theorem nodup_dedupSet {α : Type} [DecidableEq α] (xs : List α) :
    (dedupSet xs).Nodup := dedupSet_go_nodup xs [] List.nodup_nil

/-- Python `str.strip()`: drop leading and trailing whitespace.  Written by
structural recursion over the character list so that concrete instances
evaluate inside the kernel. -/
def pyStrip (s : String) : String :=
  String.mk
    (((s.data.dropWhile Char.isWhitespace).reverse.dropWhile
        Char.isWhitespace).reverse)

/-! ## Record cleaning (`clean_up_data.py`)

A raw spreadsheet row.  A cell is `none` when pandas reads it as `NaN`;
otherwise it carries the cell's string form (numeric cells are non-blank
digit strings, so they are never "empty" under the rule below, exactly as in
the source where `isinstance(row[col], str)` guards the `strip()` check).
`UnitPrice` is a numeric column, modelled as an optional rational. -/

structure RawRecord where
  invoiceNo : Option String
  stockCode : Option String
  quantity : Option String
  invoiceDate : Option String
  customerID : Option String
  unitPrice : Option ℚ
  description : Option String
deriving DecidableEq

/-- A required cell is empty when it is `NaN` or a whitespace-only string:
`pd.isna(row[col]) or (isinstance(row[col], str) and row[col].strip() == "")`. -/
def isBlank : Option String → Bool
  | none => true
  | some s => pyStrip s == ""

/-- The list of deletion reasons collected for one row, in the order the
source checks them: the five required columns, then the `UnitPrice` rule. -/
def deletionReasons (r : RawRecord) : List String :=
  (if isBlank r.invoiceNo then ["InvoiceNo is empty"] else []) ++
  (if isBlank r.stockCode then ["StockCode is empty"] else []) ++
  (if isBlank r.quantity then ["Quantity is empty"] else []) ++
  (if isBlank r.invoiceDate then ["InvoiceDate is empty"] else []) ++
  (if isBlank r.customerID then ["CustomerID is empty"] else []) ++
  (match r.unitPrice with
   | none => ["UnitPrice is empty"]
   | some p => if p ≤ 0 then ["UnitPrice is <= 0"] else [])

/-- `should_delete` flag: it is set exactly when some rule fires. -/
def shouldDelete (r : RawRecord) : Bool :=
  isBlank r.invoiceNo || isBlank r.stockCode || isBlank r.quantity ||
  isBlank r.invoiceDate || isBlank r.customerID ||
  (match r.unitPrice with
   | none => true
   | some p => decide (p ≤ 0))

/-- `clean_up_data`: returns the kept rows (in input order, the rows whose
index is not dropped) and the deleted rows paired with their joined
diagnostic reason string. -/
def clean_up_data (rs : List RawRecord) :
    List RawRecord × List (RawRecord × String) :=
  (rs.filter (fun r => !shouldDelete r),
   (rs.filter shouldDelete).map
     (fun r => (r, String.intercalate "; " (deletionReasons r))))

theorem shouldDelete_eq_reasons_nonempty (r : RawRecord) :
    shouldDelete r = !(deletionReasons r).isEmpty := by
  unfold shouldDelete deletionReasons
  cases hi : isBlank r.invoiceNo <;>
    cases hs : isBlank r.stockCode <;>
      cases hq : isBlank r.quantity <;>
        cases hd : isBlank r.invoiceDate <;>
          cases hc : isBlank r.customerID <;>
            cases hp : r.unitPrice with
            | none => simp
            | some p => by_cases h0 : p ≤ 0 <;> simp [h0]

theorem length_filter_bool_split {α : Type} (p : α → Bool) (l : List α) :
    (l.filter p).length + (l.filter (fun x => !p x)).length = l.length := by
  induction l with
  | nil => rfl
  | cons x l ih =>
    cases h : p x <;> simp [List.filter_cons, h] <;> omega

/-- Claim C2: the filter keeps exactly the rows for which no validity rule
fires (a row is discarded iff one of the five required fields is empty/blank
or the unit price is missing or non-positive); discarded + kept = input
count; the kept rows are a subsequence of the input (order preserved); and
every fired rule's reason is present in the row's reason list (all rules are
checked, none short-circuited). -/
theorem clean_up_data_correct (rs : List RawRecord) :
    (clean_up_data rs).2.length + (clean_up_data rs).1.length = rs.length ∧
    (clean_up_data rs).1.Sublist rs ∧
    (∀ r, r ∈ (clean_up_data rs).1 ↔ r ∈ rs ∧ shouldDelete r = false) ∧
    (∀ r : RawRecord,
      (shouldDelete r = true ↔
        (isBlank r.invoiceNo = true ∨ isBlank r.stockCode = true ∨
         isBlank r.quantity = true ∨ isBlank r.invoiceDate = true ∨
         isBlank r.customerID = true ∨ r.unitPrice = none ∨
         ∃ p, r.unitPrice = some p ∧ p ≤ 0))) ∧
    (∀ r : RawRecord,
      ("InvoiceNo is empty" ∈ deletionReasons r ↔ isBlank r.invoiceNo = true) ∧
      ("StockCode is empty" ∈ deletionReasons r ↔ isBlank r.stockCode = true) ∧
      ("Quantity is empty" ∈ deletionReasons r ↔ isBlank r.quantity = true) ∧
      ("InvoiceDate is empty" ∈ deletionReasons r ↔
        isBlank r.invoiceDate = true) ∧
      ("CustomerID is empty" ∈ deletionReasons r ↔
        isBlank r.customerID = true) ∧
      ("UnitPrice is empty" ∈ deletionReasons r ↔ r.unitPrice = none) ∧
      ("UnitPrice is <= 0" ∈ deletionReasons r ↔
        ∃ p, r.unitPrice = some p ∧ p ≤ 0)) := by
  refine ⟨?_, ?_, ?_, ?_, ?_⟩
  · simpa [clean_up_data] using length_filter_bool_split shouldDelete rs
  · exact (List.filter_sublist rs)
  · intro r
    simp [clean_up_data, List.mem_filter]
  · intro r
    unfold shouldDelete
    cases hp : r.unitPrice with
    | none => simp
    | some p =>
      by_cases h0 : p ≤ 0 <;> simp [h0, or_assoc]
  · intro r
    unfold deletionReasons
    cases hp : r.unitPrice with
    | none =>
      cases hi : isBlank r.invoiceNo <;>
        cases hs : isBlank r.stockCode <;>
          cases hq : isBlank r.quantity <;>
            cases hd : isBlank r.invoiceDate <;>
              cases hc : isBlank r.customerID <;>
                simp
    | some p =>
      by_cases h0 : p ≤ 0 <;>
        cases hi : isBlank r.invoiceNo <;>
          cases hs : isBlank r.stockCode <;>
            cases hq : isBlank r.quantity <;>
              cases hd : isBlank r.invoiceDate <;>
                cases hc : isBlank r.customerID <;>
                  simp [h0]

/-! ## Stock-code cells

A `StockCode` cell as read by pandas from the spreadsheet: either a numeric
cell or a text cell (the retail data mixes both).  `SCode.toStr` is Python
`str(...)` / pandas `.astype(str)` on such a value. -/

inductive SCode where
  | num : Int → SCode
  | strv : String → SCode
deriving DecidableEq

def SCode.toStr : SCode → String
  | SCode.num n => toString n
  | SCode.strv s => s

/-! ## Matrix filling (`fill_matrix.py`, `make_matrix.py`)

`fill_matrix` reads the cleaned table (columns used: `InvoiceNo`,
`Description`; `StockCode` is present in the frame but unused), reads the
header of `matrix.csv` (written by `make_matrix.py`: `InvoiceNo` followed by
the item catalog), and appends one presence row per distinct invoice. -/

structure FRecord where
  invoiceNo : String
  stockCode : SCode
  description : Option String
deriving DecidableEq

/-- `str(...)` applied to a `Description` cell: `str(nan)` is `"nan"`. -/
def strOfDesc : Option String → String
  | none => "nan"
  | some s => s

/-- `set(invoice_group["Description"].astype(str))` as a list (membership is
what matters): the stringified descriptions of the records of one invoice. -/
def itemsInInvoice (recs : List FRecord) (inv : String) : List String :=
  (recs.filter (fun r => decide (r.invoiceNo = inv))).map
    (fun r => strOfDesc r.description)

/-- The presence vector of one invoice: for each catalog item (a column of
`matrix.csv` after the leading `InvoiceNo`), `1` if the item is among the
invoice's stringified descriptions, else `0`. -/
def fillRow (itemsCols : List String) (recs : List FRecord) (inv : String) :
    List ℕ :=
  itemsCols.map (fun item => if item ∈ itemsInInvoice recs inv then 1 else 0)

/-- `df_data["InvoiceNo"].unique()`: distinct invoices in first-seen order. -/
def uniqueInvoices (recs : List FRecord) : List String :=
  dedupSet (recs.map (fun r => r.invoiceNo))

/-- The data rows `fill_matrix` appends: one CSV row per distinct invoice,
the invoice number followed by the presence vector rendered as strings. -/
def fillRows (itemsCols : List String) (recs : List FRecord) :
    List (List String) :=
  (uniqueInvoices recs).map
    (fun inv => inv :: (fillRow itemsCols recs inv).map toString)

/-- `fill_matrix` as a transformation of the matrix artifact's contents.
`none` models an absent `matrix.csv` (the function prints an error and
returns `None` without writing); an empty file also aborts (reading the
header raises, the handler returns `None`).  Otherwise the rows are appended
after the existing contents, the catalog being the existing header minus its
leading `InvoiceNo` column. -/
def fill_matrix (matrixFile : Option (List (List String)))
    (recs : List FRecord) : Option (List (List String)) :=
  match matrixFile with
  | none => none
  | some [] => none
  | some (header :: rest) =>
    some ((header :: rest) ++ fillRows header.tail recs)

/-- Claim C1: every emitted presence vector has exactly one entry per catalog
item, each entry is the indicator (hence `0` or `1`) of the catalog item at
that position appearing among the transaction's records, and duplicated
records do not change the vector (repetition yields `1`, not a count). -/
theorem fillRow_presence_invariant (itemsCols : List String)
    (recs : List FRecord) (inv : String) (i : ℕ) (item : String)
    (h : itemsCols[i]? = some item) :
    (fillRow itemsCols recs inv).length = itemsCols.length ∧
    (fillRow itemsCols recs inv)[i]? =
      some (if item ∈ itemsInInvoice recs inv then 1 else 0) ∧
    (∀ v, v ∈ fillRow itemsCols recs inv → v = 0 ∨ v = 1) ∧
    fillRow itemsCols (recs ++ recs) inv = fillRow itemsCols recs inv := by
  refine ⟨by simp [fillRow], ?_, ?_, ?_⟩
  · simp [fillRow, List.getElem?_map, h]
  · intro v hv
    simp only [fillRow, List.mem_map] at hv
    obtain ⟨item2, _, hval⟩ := hv
    by_cases hm : item2 ∈ itemsInInvoice recs inv <;> simp [hm] at hval <;>
      omega
  · unfold fillRow
    apply List.map_congr_left
    intro item2 _
    have hmem : item2 ∈ itemsInInvoice (recs ++ recs) inv ↔
        item2 ∈ itemsInInvoice recs inv := by
      simp [itemsInInvoice, List.filter_append]
    by_cases hm : item2 ∈ itemsInInvoice recs inv <;>
      simp [hm, hmem]

theorem fillRow_presence_invariant_witness :
    (["A", "B"][0]? = some "A") ∧
    ((fillRow ["A", "B"]
        [⟨"T1", SCode.strv "S", some "A"⟩, ⟨"T1", SCode.strv "S", some "A"⟩]
        "T1").length = 2 ∧
      (fillRow ["A", "B"]
        [⟨"T1", SCode.strv "S", some "A"⟩, ⟨"T1", SCode.strv "S", some "A"⟩]
        "T1")[0]? =
        some (if "A" ∈ itemsInInvoice
            [⟨"T1", SCode.strv "S", some "A"⟩, ⟨"T1", SCode.strv "S", some "A"⟩]
            "T1" then 1 else 0) ∧
      (∀ v, v ∈ fillRow ["A", "B"]
          [⟨"T1", SCode.strv "S", some "A"⟩, ⟨"T1", SCode.strv "S", some "A"⟩]
          "T1" → v = 0 ∨ v = 1) ∧
      fillRow ["A", "B"]
          ([⟨"T1", SCode.strv "S", some "A"⟩, ⟨"T1", SCode.strv "S", some "A"⟩] ++
            [⟨"T1", SCode.strv "S", some "A"⟩, ⟨"T1", SCode.strv "S", some "A"⟩])
          "T1" =
        fillRow ["A", "B"]
          [⟨"T1", SCode.strv "S", some "A"⟩, ⟨"T1", SCode.strv "S", some "A"⟩]
          "T1") :=
  ⟨by decide,
   by
    have h2 := fillRow_presence_invariant ["A", "B"]
      [⟨"T1", SCode.strv "S", some "A"⟩, ⟨"T1", SCode.strv "S", some "A"⟩]
      "T1" 0 "A" (by decide)
    simpa using h2⟩

/-- Claim C6 counterexample: two cleaned tables that agree on every
`StockCode` (and on `InvoiceNo`) but differ in `Description` produce
different presence rows, so the cell is not determined by the item
identifier; the join key is the description column. -/
theorem fill_matrix_description_join_counterexample :
    (FRecord.mk "T1" (SCode.strv "S1") (some "A")).stockCode =
      (FRecord.mk "T1" (SCode.strv "S1") (some "B")).stockCode ∧
    fillRow ["A", "B"] [FRecord.mk "T1" (SCode.strv "S1") (some "A")] "T1" =
      [1, 0] ∧
    fillRow ["A", "B"] [FRecord.mk "T1" (SCode.strv "S1") (some "B")] "T1" =
      [0, 1] := by
  refine ⟨rfl, ?_, ?_⟩ <;> decide

/-- Claim C6 amended: the presence cell is a function of the invoice and
description columns only — rewriting every record's `StockCode` arbitrarily
never changes any presence row (the catalog is matched against stringified
descriptions, `StockCode` is read but unused by `fill_matrix`). -/
theorem fillRow_ignores_stockCode (itemsCols : List String)
    (recs : List FRecord) (inv : String) (f : FRecord → SCode) :
    fillRow itemsCols
        (recs.map (fun r => { r with stockCode := f r })) inv =
      fillRow itemsCols recs inv := by
  have hitems : itemsInInvoice (recs.map (fun r => { r with stockCode := f r }))
      inv = itemsInInvoice recs inv := by
    unfold itemsInInvoice
    induction recs with
    | nil => rfl
    | cons r rs ih =>
      by_cases hr : r.invoiceNo = inv <;>
        simp [List.filter_cons, hr, strOfDesc] at ih ⊢ <;>
          simpa using ih
  unfold fillRow
  rw [hitems]

/-- Claim C10: `fill_matrix` on an absent artifact writes nothing and
returns `None`; on an existing artifact it appends exactly one data row per
distinct `InvoiceNo` after the unchanged existing bytes (header plus any
previously appended rows); the appended rows' keys are exactly the distinct
invoices; consequently a second invocation appends the same rows again,
duplicating every transaction row. -/
theorem fill_matrix_append_spec (header : List String)
    (rest : List (List String)) (recs : List FRecord) :
    fill_matrix none recs = none ∧
    fill_matrix (some (header :: rest)) recs =
      some ((header :: rest) ++ fillRows header.tail recs) ∧
    (fillRows header.tail recs).map (fun r => r.head?) =
      (uniqueInvoices recs).map some ∧
    (uniqueInvoices recs).Nodup ∧
    (∀ a, a ∈ uniqueInvoices recs ↔ a ∈ recs.map (fun r => r.invoiceNo)) ∧
    fill_matrix (fill_matrix (some (header :: rest)) recs) recs =
      some (((header :: rest) ++ fillRows header.tail recs) ++
        fillRows header.tail recs) := by
  refine ⟨rfl, rfl, ?_, nodup_dedupSet _, ?_, ?_⟩
  · simp [fillRows]
  · intro a
    exact mem_dedupSet _ a
  · simp [fill_matrix, fillRows]

/-! ## The two matrix-construction strategies
(`item_transaction_matrix.py` vs `item_transaction_matrix_fixed.py`)

Both consume the cleaned table's `(InvoiceNo, StockCode)` pairs.  The
group-by-and-pivot construction (`create_item_transaction_matrix`) keys
columns by the raw `StockCode` value and sets a cell to `1` iff the group
`(invoice, stockcode)` is non-empty.  The streaming construction
(`create_item_transaction_matrix_ultra_streaming`) first casts `StockCode`
to `str`, builds a complete invoice → item-string-set mapping, then emits a
cell `1` iff the column's string is in the invoice's set.  Column order (a
sort in the source) is irrelevant to the claim, which compares the
transaction-to-presence-vector mappings; columns are kept in first-seen
order here and compared as sets. -/

def stocksOf (recs : List (String × SCode)) (t : String) : List SCode :=
  (recs.filter (fun r => decide (r.1 = t))).map (fun r => r.2)

def pivotCols (recs : List (String × SCode)) : List SCode :=
  dedupSet (recs.map (fun r => r.2))

/-- `(matrix > 0).astype(int)`: the group size of `(t, c)` is positive iff
some record pairs them. -/
def pivotCell (recs : List (String × SCode)) (t : String) (c : SCode) : ℕ :=
  if c ∈ stocksOf recs t then 1 else 0

def pivotRow (recs : List (String × SCode)) (t : String) : List ℕ :=
  (pivotCols recs).map (pivotCell recs t)

def ultraCols (recs : List (String × SCode)) : List String :=
  dedupSet (recs.map (fun r => r.2.toStr))

/-- `transaction_items[invoice]`: the stringified stock codes of one
invoice (a set; only membership matters). -/
def ultraItems (recs : List (String × SCode)) (t : String) : List String :=
  (recs.filter (fun r => decide (r.1 = t))).map (fun r => r.2.toStr)

def ultraCell (recs : List (String × SCode)) (t : String) (s : String) : ℕ :=
  if s ∈ ultraItems recs t then 1 else 0

def ultraRow (recs : List (String × SCode)) (t : String) : List ℕ :=
  (ultraCols recs).map (ultraCell recs t)

/-- Claim C7 counterexample: on a cleaned input whose stock codes are the
numeric cell `1` and the text cell `"1"`, the pivot construction emits rows
over two item columns while the streaming construction (which casts to
`str` first) emits rows over a single merged column — the two strategies do
not produce the same format on every cleaned input. -/
theorem matrix_strategies_divergence :
    (pivotCols [("T1", SCode.num 1), ("T1", SCode.strv "1")]).length = 2 ∧
    (ultraCols [("T1", SCode.num 1), ("T1", SCode.strv "1")]).length = 1 ∧
    (pivotRow [("T1", SCode.num 1), ("T1", SCode.strv "1")] "T1").length ≠
      (ultraRow [("T1", SCode.num 1), ("T1", SCode.strv "1")] "T1").length := by
  refine ⟨by decide, by decide, by decide⟩

/-- Claim C7 amended: whenever stringification is injective on the stock
codes actually present (in particular whenever the column is uniformly
typed), the two strategies produce identical results: the streaming
construction's column list is the pivot construction's column list
stringified, and every transaction's presence vector is identical under
both. -/
theorem matrix_strategies_agree_of_inj (recs : List (String × SCode))
    (hinj : ∀ c1 ∈ recs.map (fun r => r.2), ∀ c2 ∈ recs.map (fun r => r.2),
      SCode.toStr c1 = SCode.toStr c2 → c1 = c2) :
    ultraCols recs = (pivotCols recs).map SCode.toStr ∧
    ∀ t, ultraRow recs t = pivotRow recs t := by
  have hcols : ultraCols recs = (pivotCols recs).map SCode.toStr := by
    unfold ultraCols pivotCols dedupSet
    have hmm : recs.map (fun r => r.2.toStr) =
        (recs.map (fun r => r.2)).map SCode.toStr := by
      simp [List.map_map, Function.comp]
    rw [hmm, List.foldl_map]
    have key : ∀ (cs : List SCode) (acc : List SCode),
        (∀ c1 ∈ recs.map (fun r => r.2), ∀ c2 ∈ recs.map (fun r => r.2),
          SCode.toStr c1 = SCode.toStr c2 → c1 = c2) →
        (∀ c ∈ cs, c ∈ recs.map (fun r => r.2)) →
        (∀ c ∈ acc, c ∈ recs.map (fun r => r.2)) →
        List.foldl (fun d c => insertNew d (SCode.toStr c))
            (acc.map SCode.toStr) cs =
          (List.foldl insertNew acc cs).map SCode.toStr := by
      intro cs
      induction cs with
      | nil => intro acc _ _ _; rfl
      | cons c cs ih =>
        intro acc hinj2 hcs hacc
        have hc : c ∈ recs.map (fun r => r.2) := hcs c (by simp)
        have hmem : SCode.toStr c ∈ acc.map SCode.toStr ↔ c ∈ acc := by
          constructor
          · intro hm
            simp only [List.mem_map] at hm
            obtain ⟨c2, hc2, he⟩ := hm
            have := hinj2 c2 (hacc c2 hc2) c hc he
            exact this ▸ hc2
          · intro hm
            exact List.mem_map_of_mem _ hm
        have hstep : insertNew (acc.map SCode.toStr) (SCode.toStr c) =
            (insertNew acc c).map SCode.toStr := by
          unfold insertNew
          by_cases hm : c ∈ acc
          · simp [hm, hmem.mpr hm]
          · simp only [hmem]
            simp [hm]
        simp only [List.foldl_cons, hstep]
        exact ih (insertNew acc c) hinj2 (fun x hx => hcs x (by simp [hx]))
          (fun x hx => by
            rcases (mem_insertNew acc c x).mp hx with h | h
            · exact hacc x h
            · exact h ▸ hc)
    have := key (recs.map (fun r => r.2)) [] hinj (fun c hc => hc)
      (by intro c hc; cases hc)
    simpa using this
  refine ⟨hcols, ?_⟩
  intro t
  unfold ultraRow pivotRow
  rw [hcols, List.map_map]
  apply List.map_congr_left
  intro c hc
  have hcr : c ∈ recs.map (fun r => r.2) := by
    have hc2 : c ∈ dedupSet (recs.map (fun r => r.2)) := hc
    exact (mem_dedupSet (recs.map (fun r => r.2)) c).mp hc2
  unfold ultraCell pivotCell Function.comp
  have hmem : SCode.toStr c ∈ ultraItems recs t ↔ c ∈ stocksOf recs t := by
    unfold ultraItems stocksOf
    have hmm2 : (recs.filter (fun r => decide (r.1 = t))).map
        (fun r => r.2.toStr) =
        ((recs.filter (fun r => decide (r.1 = t))).map
          (fun r => r.2)).map SCode.toStr := by
      simp [List.map_map, Function.comp]
    rw [hmm2]
    constructor
    · intro hm
      obtain ⟨c2, hc2, he⟩ := List.mem_map.mp hm
      have hc2r : c2 ∈ recs.map (fun r => r.2) := by
        obtain ⟨r, hr, hrc⟩ := List.mem_map.mp hc2
        exact List.mem_map.mpr ⟨r, (List.mem_filter.mp hr).1, hrc⟩
      have heq := hinj c2 hc2r c hcr he
      exact heq ▸ hc2
    · intro hm
      exact List.mem_map_of_mem _ hm
  by_cases hm : c ∈ stocksOf recs t <;> simp [hm, hmem]

theorem matrix_strategies_agree_witness :
    (∀ c1 ∈ ([("T1", SCode.strv "A"), ("T2", SCode.strv "B")].map
        (fun r => r.2)), ∀ c2 ∈ ([("T1", SCode.strv "A"),
        ("T2", SCode.strv "B")].map (fun r => r.2)),
      SCode.toStr c1 = SCode.toStr c2 → c1 = c2) ∧
    ultraRow [("T1", SCode.strv "A"), ("T2", SCode.strv "B")] "T1" =
      pivotRow [("T1", SCode.strv "A"), ("T2", SCode.strv "B")] "T1" :=
  ⟨by decide,
   (matrix_strategies_agree_of_inj
      [("T1", SCode.strv "A"), ("T2", SCode.strv "B")] (by decide)).2 "T1"⟩

/-! ## Gaussian random projection (`gaussian_random_projection.py`) -/

/-- A fitted projection model: the `k × d` matrix of the fitted linear
operator.  Its target dimension is the number of matrix rows `k` (the width
of every transformed sample). -/
structure Projection where
  components : List (List ℚ)

def dotL (a b : List ℚ) : ℚ := (List.zipWith (fun x y => x * y) a b).sum

/-- `transformer.transform` on one sample: the fitted linear operator. -/
def transform (P : Projection) (x : List ℚ) : List ℚ :=
  P.components.map (fun row => dotL row x)

/-- `apply_projection_to_batch`: maps every row's presence vector through
the fitted operator, re-inserts the `InvoiceNo` column first, and names the
value columns `RP_0 … RP_{k-1}`. -/
def apply_projection_to_batch (P : Projection)
    (batch : List (String × List ℚ)) :
    List String × List (String × List ℚ) :=
  ("InvoiceNo" ::
      (List.range P.components.length).map (fun i => "RP_" ++ toString i),
   batch.map (fun row => (row.1, transform P row.2)))

/-- Claim C8 counterexample: the synthetic value columns are named
`RP_0 … RP_{k-1}`, not `component_0 … component_{k-1}`: on a one-component
model the first value column is `"RP_0"`. -/
theorem apply_projection_column_names :
    (apply_projection_to_batch ⟨[[1]]⟩ [("T1", [2])]).1 =
      ["InvoiceNo", "RP_0"] ∧
    "RP_0" ≠ "component_0" := by
  refine ⟨by decide, by decide⟩

/-- Claim C8 amended: for every partition and fitted model, `apply` returns
the same number of rows, carries each row's `InvoiceNo` through unchanged
and in order, renames the value columns to `RP_0 … RP_{k-1}` where `k` is
the model's target dimension, and gives every output row exactly `k` value
columns. -/
theorem apply_projection_to_batch_spec (P : Projection)
    (batch : List (String × List ℚ)) :
    (apply_projection_to_batch P batch).2.length = batch.length ∧
    (apply_projection_to_batch P batch).2.map (fun row => row.1) =
      batch.map (fun row => row.1) ∧
    (apply_projection_to_batch P batch).1 =
      "InvoiceNo" ::
        (List.range P.components.length).map (fun i => "RP_" ++ toString i) ∧
    (apply_projection_to_batch P batch).1.length =
      P.components.length + 1 ∧
    (apply_projection_to_batch P batch).2.map (fun row => row.2.length) =
      batch.map (fun _ => P.components.length) := by
  refine ⟨by simp [apply_projection_to_batch], ?_, rfl, ?_, ?_⟩
  · simp [apply_projection_to_batch]
  · simp [apply_projection_to_batch]
  · unfold apply_projection_to_batch
    rw [List.map_map]
    apply List.map_congr_left
    intro row _
    simp [transform, Function.comp]

/-- Validation of the target dimension in `fit_projection_on_batch`
(`n` the requested or JL-derived dimension, `cols` the number of item
columns of the fitting batch): clamp when `n >= cols`, then fail (return
`None`) when the resulting value is `<= 0`.  The `Bool` records whether the
clamp warning was printed. -/
def clamp_n_components (n : Int) (cols : ℕ) : Int × Bool :=
  if n ≥ (cols : Int) then (max 1 ((cols : Int) - 1), true) else (n, false)

def validate_n_components (n : Int) (cols : ℕ) : Option (Int × Bool) :=
  if (clamp_n_components n cols).1 ≤ 0 then none
  else some (clamp_n_components n cols)

/-- Claim C5 counterexample: with requested dimension `5` and a single item
column, the claim predicts a clamp to `source_dimension - 1 = 0` followed by
an invalid-parameter failure, but the code clamps to `max(1, 0) = 1` and
the fit proceeds. -/
theorem clamp_counterexample :
    validate_n_components 5 1 = some (1, true) ∧
    (clamp_n_components 5 1).1 ≠ (1 : Int) - 1 := by
  refine ⟨by decide, by decide⟩

/-- Claim C5 amended: a requested or derived dimension `>= cols` is clamped
to `max(1, cols - 1)` with a warning; the fit fails with an
invalid-parameter result (`None`, leaving any written partitions untouched
since fitting writes nothing) exactly when the dimension after clamping is
`<= 0`, which happens exactly when the requested dimension is `<= 0` and
below the source dimension. -/
theorem validate_n_components_characterization (n : Int) (cols : ℕ) :
    clamp_n_components n cols =
      (if n ≥ (cols : Int) then ((max 1 ((cols : Int) - 1), true) : Int × Bool)
       else (n, false)) ∧
    validate_n_components n cols =
      (if n ≤ 0 ∧ n < (cols : Int) then none
       else some (clamp_n_components n cols)) ∧
    ((clamp_n_components n cols).1 ≤ 0 ↔ n ≤ 0 ∧ n < (cols : Int)) := by
  refine ⟨rfl, ?_, ?_⟩
  · unfold validate_n_components clamp_n_components
    by_cases hge : n ≥ (cols : Int)
    · have h1 : ¬(max 1 ((cols : Int) - 1) ≤ 0) := by
        have := le_max_left 1 ((cols : Int) - 1)
        omega
      have h2 : ¬(n ≤ 0 ∧ n < (cols : Int)) := by omega
      simp [hge, h1, h2]
    · by_cases h0 : n ≤ 0
      · have : n < (cols : Int) := by omega
        simp [hge, h0, this]
      · have : ¬(n ≤ 0 ∧ n < (cols : Int)) := by omega
        simp [hge, h0, this]
  · unfold clamp_n_components
    by_cases hge : n ≥ (cols : Int)
    · have hmax := le_max_left 1 ((cols : Int) - 1)
      rw [if_pos hge]
      constructor
      · intro h
        exact absurd (le_trans hmax h) (by norm_num)
      · rintro ⟨h0, hlt⟩
        exact absurd (lt_of_le_of_lt hge hlt) (lt_irrefl _)
    · rw [if_neg hge]
      have hlt : n < (cols : Int) := lt_of_not_ge hge
      exact ⟨fun h => ⟨h, hlt⟩, fun h => h.1⟩

/-! ## Johnson–Lindenstrauss minimum dimension

`calculate_target_dimension` wraps sklearn's
`johnson_lindenstrauss_min_dim(n_samples, eps)`, which computes
`(4 * log(n_samples) / (eps^2 / 2 - eps^3 / 3))` and truncates to an
integer.  Float arithmetic is modelled over the reals; for the non-negative
values produced on the valid range, truncation coincides with the floor. -/

noncomputable def johnson_lindenstrauss_min_dim (nSamples : ℕ) (eps : ℝ) :
    ℤ :=
  ⌊4 * Real.log nSamples / (eps ^ 2 / 2 - eps ^ 3 / 3)⌋

noncomputable def calculate_target_dimension (nSamples : ℕ) (eps : ℝ) : ℤ :=
  johnson_lindenstrauss_min_dim nSamples eps

theorem jl_denominator_pos {e : ℝ} (h0 : 0 < e) (h1 : e < 1) :
    0 < e ^ 2 / 2 - e ^ 3 / 3 := by
  nlinarith [mul_pos (mul_pos h0 h0) (show (0 : ℝ) < 3 - 2 * e by linarith)]

theorem jl_denominator_mono {e1 e2 : ℝ} (h0 : 0 < e1) (h12 : e1 ≤ e2)
    (h1 : e2 < 1) : e1 ^ 2 / 2 - e1 ^ 3 / 3 ≤ e2 ^ 2 / 2 - e2 ^ 3 / 3 := by
  nlinarith [mul_nonneg (mul_nonneg h0.le (sub_nonneg.mpr h12))
      (show (0 : ℝ) ≤ 1 - e1 by linarith),
    mul_nonneg (mul_nonneg h0.le (sub_nonneg.mpr h12))
      (show (0 : ℝ) ≤ 1 - e2 by linarith),
    mul_nonneg (mul_nonneg (le_trans h0.le h12) (sub_nonneg.mpr h12))
      (show (0 : ℝ) ≤ 1 - e2 by linarith),
    mul_nonneg (sub_nonneg.mpr h12) (sub_nonneg.mpr h12)]

/-- Claim C9: the target dimension is a function of the pair
`(sampleCount, errorTolerance)` alone (it is a Lean function of exactly
those arguments), and for a fixed sample count it is non-increasing in the
tolerance over the valid range `0 < eps < 1`. -/
theorem calculate_target_dimension_antitone (n : ℕ) (e1 e2 : ℝ)
    (hn : 1 ≤ n) (h0 : 0 < e1) (h12 : e1 ≤ e2) (h1 : e2 < 1) :
    calculate_target_dimension n e2 ≤ calculate_target_dimension n e1 := by
  unfold calculate_target_dimension johnson_lindenstrauss_min_dim
  apply Int.floor_le_floor
  have hlog : 0 ≤ Real.log n := by
    apply Real.log_nonneg
    exact_mod_cast hn
  have hd1 : 0 < e1 ^ 2 / 2 - e1 ^ 3 / 3 :=
    jl_denominator_pos h0 (lt_of_le_of_lt h12 h1)
  have hd12 : e1 ^ 2 / 2 - e1 ^ 3 / 3 ≤ e2 ^ 2 / 2 - e2 ^ 3 / 3 :=
    jl_denominator_mono h0 h12 h1
  have hnum : 0 ≤ 4 * Real.log n := by linarith
  exact div_le_div_of_nonneg_left hnum hd1 hd12

theorem calculate_target_dimension_antitone_witness :
    1 ≤ 1000 ∧ 0 < ((1 : ℝ) / 4) ∧ ((1 : ℝ) / 4) ≤ 1 / 2 ∧
      ((1 : ℝ) / 2) < 1 ∧
      calculate_target_dimension 1000 (1 / 2) ≤
        calculate_target_dimension 1000 (1 / 4) :=
  ⟨by norm_num, by norm_num, by norm_num, by norm_num,
   calculate_target_dimension_antitone 1000 (1 / 4) (1 / 2) (by norm_num)
     (by norm_num) (by norm_num) (by norm_num)⟩

/-! ## Monthly partitioning (`create_batches.py`)

Pass 1 reads `(InvoiceNo, InvoiceDate)` from the cleaned table, groups by
`InvoiceNo` taking the earliest date, and builds the dict
`invoice_to_month` keyed by `str(invoice_no).strip()` with calendar-month
values (pandas presents the grouped keys in sorted order, modelled by an
insertion sort).  Pass 2 streams the matrix rows: empty rows are skipped,
the first cell is normalized (`str(...).strip()`, an empty string being
falsy and treated as a missing key), the month is looked up, matched rows
are appended to that month's batch file (already holding the matrix
header), and unmatched keys are collected in a set. -/

structure Timestamp where
  year : ℕ
  month : ℕ
  sub : ℕ
deriving DecidableEq

/-- Chronological (lexicographic) order on timestamps; `sub` ranks the
within-month remainder (day, time). -/
def Timestamp.le (a b : Timestamp) : Prop :=
  a.year < b.year ∨ (a.year = b.year ∧ (a.month < b.month ∨
    (a.month = b.month ∧ a.sub ≤ b.sub)))

instance : DecidableRel Timestamp.le := fun a b => by
  unfold Timestamp.le
  infer_instance

def tmin (a b : Timestamp) : Timestamp := if Timestamp.le a b then a else b

/-- `InvoiceDate.to_period("M")`: the calendar month of a timestamp. -/
def period (t : Timestamp) : ℕ × ℕ := (t.year, t.month)

structure BRecord where
  invoiceNo : String
  invoiceDate : Timestamp
deriving DecidableEq

/-- One step of `df_data.groupby("InvoiceNo")["InvoiceDate"].min()`:
fold each record into the per-invoice running minimum. -/
def gStep (acc : List (String × Timestamp)) (r : BRecord) :
    List (String × Timestamp) :=
  match lookupA acc r.invoiceNo with
  | some t => updateA acc r.invoiceNo (tmin t r.invoiceDate)
  | none => acc ++ [(r.invoiceNo, r.invoiceDate)]

def groupMinDates (recs : List BRecord) : List (String × Timestamp) :=
  recs.foldl gStep []

def insertSorted (x : String × Timestamp) :
    List (String × Timestamp) → List (String × Timestamp)
  | [] => [x]
  | y :: ys =>
    if x.1 < y.1 then x :: y :: ys else y :: insertSorted x ys

/-- The grouped series is presented sorted by key. -/
def sortByKey (l : List (String × Timestamp)) : List (String × Timestamp) :=
  l.foldr insertSorted []

/-- The `invoice_to_month` dict: iterate the grouped minima, keying each
entry by the stripped string form of the invoice and storing the month. -/
def invoice_to_month (recs : List BRecord) : List (String × (ℕ × ℕ)) :=
  (sortByKey (groupMinDates recs)).foldl
    (fun d kv => setA d (pyStrip kv.1) (period kv.2)) []

/-- `sorted(set(invoice_to_month.values()))` — only set contents matter
downstream, so the order of this list is left as first-seen. -/
def unique_months (recs : List BRecord) : List (ℕ × ℕ) :=
  dedupSet ((invoice_to_month recs).map (fun kv => kv.2))

/-- Where one matrix row is routed: `none` when the row is empty (skipped),
its raw key is falsy, its stripped key is falsy (`month =
invoice_to_month.get(invoice_no) if invoice_no else None` — a key that
strips to the empty string is never looked up), the lookup misses, or the
month has no batch file. -/
def routeTarget (mapping : List (String × (ℕ × ℕ))) (months : List (ℕ × ℕ))
    (row : List String) : Option (ℕ × ℕ) :=
  match row.head? with
  | none => none
  | some s =>
    if s = "" then none
    else if pyStrip s = "" then none
    else
      match lookupA mapping (pyStrip s) with
      | some m => if m ∈ months then some m else none
      | none => none

/-- The normalized key of a matrix row, as used for the unmatched set:
`str(row[0]).strip() if row[0] else None`. -/
def rowKey (row : List String) : Option String :=
  match row.head? with
  | none => none
  | some s => if s = "" then none else some (pyStrip s)

structure BatchResult where
  partitions : List ((ℕ × ℕ) × List (List String))
  totalRows : ℕ
  matchedRows : ℕ
  unmatchedInvoices : List (Option String)
deriving DecidableEq

/-- Append a row to the batch file of month `m`. -/
def appendRow (ps : List ((ℕ × ℕ) × List (List String))) (m : ℕ × ℕ)
    (row : List String) : List ((ℕ × ℕ) × List (List String)) :=
  ps.map (fun p => if p.1 = m then (p.1, p.2 ++ [row]) else p)

/-- Processing of one matrix row (the body of the pass-2 loop). -/
def stepRow (mapping : List (String × (ℕ × ℕ))) (months : List (ℕ × ℕ))
    (st : BatchResult) (row : List String) : BatchResult :=
  match row.head? with
  | none => st
  | some s =>
    let st1 : BatchResult := { st with totalRows := st.totalRows + 1 }
    if s = "" then
      { st1 with unmatchedInvoices := insertNew st1.unmatchedInvoices none }
    else if pyStrip s = "" then
      { st1 with unmatchedInvoices :=
          insertNew st1.unmatchedInvoices (some (pyStrip s)) }
    else
      match lookupA mapping (pyStrip s) with
      | some m =>
        if m ∈ months then
          { st1 with
            partitions := appendRow st1.partitions m row,
            matchedRows := st1.matchedRows + 1 }
        else
          { st1 with unmatchedInvoices :=
              insertNew st1.unmatchedInvoices (some (pyStrip s)) }
      | none =>
        { st1 with unmatchedInvoices :=
            insertNew st1.unmatchedInvoices (some (pyStrip s)) }

/-- The streaming pass of `create_monthly_batches`: one batch file per
month holding the matrix header, then every matrix data row folded through
`stepRow`. -/
def runBatches (recs : List BRecord) (header : List String)
    (rows : List (List String)) : BatchResult :=
  let mapping := invoice_to_month recs
  let months := unique_months recs
  rows.foldl (stepRow mapping months)
    { partitions := months.map (fun m => (m, [header])),
      totalRows := 0, matchedRows := 0, unmatchedInvoices := [] }

/-- `create_monthly_batches`: build the month mapping from the cleaned
records, then stream the matrix rows.  When the month list is empty (an
empty cleaned table) the summary print indexes `unique_months[0]`, raising
`IndexError`, which the handler turns into `None` before any batch file is
created or any matrix row is read — modelled by `none`. -/
def create_monthly_batches (recs : List BRecord) (header : List String)
    (rows : List (List String)) : Option BatchResult :=
  if unique_months recs = [] then none
  else some (runBatches recs header rows)

/-! ### Order and minimum lemmas for timestamps -/

theorem Timestamp.le_refl (a : Timestamp) : Timestamp.le a a := by
  unfold Timestamp.le
  omega

theorem Timestamp.le_trans {a b c : Timestamp} (h1 : Timestamp.le a b)
    (h2 : Timestamp.le b c) : Timestamp.le a c := by
  unfold Timestamp.le at h1 h2 ⊢
  omega

theorem Timestamp.le_total (a b : Timestamp) :
    Timestamp.le a b ∨ Timestamp.le b a := by
  unfold Timestamp.le
  omega

theorem tmin_le_left (a b : Timestamp) : Timestamp.le (tmin a b) a := by
  unfold tmin
  split <;> rename_i h
  · exact Timestamp.le_refl a
  · rcases Timestamp.le_total a b with h2 | h2
    · exact absurd h2 h
    · exact h2

theorem tmin_le_right (a b : Timestamp) : Timestamp.le (tmin a b) b := by
  unfold tmin
  split <;> rename_i h
  · exact h
  · exact Timestamp.le_refl b

theorem tmin_mem (a b : Timestamp) : tmin a b = a ∨ tmin a b = b := by
  unfold tmin
  split
  · exact Or.inl rfl
  · exact Or.inr rfl

/-- The running minimum of a list of timestamps. -/
def listMin : List Timestamp → Option Timestamp
  | [] => none
  | t :: ts => some (ts.foldl tmin t)

theorem foldl_tmin_mem (ts : List Timestamp) (t : Timestamp) :
    ts.foldl tmin t = t ∨ ts.foldl tmin t ∈ ts := by
  induction ts generalizing t with
  | nil => exact Or.inl rfl
  | cons u ts ih =>
    simp only [List.foldl_cons]
    rcases ih (tmin t u) with h | h
    · rcases tmin_mem t u with h2 | h2
      · exact Or.inl (h.trans h2)
      · exact Or.inr (List.mem_cons.mpr (Or.inl (h.trans h2)))
    · exact Or.inr (List.mem_cons.mpr (Or.inr h))

theorem foldl_tmin_le (ts : List Timestamp) (t : Timestamp) :
    Timestamp.le (ts.foldl tmin t) t ∧
      ∀ u ∈ ts, Timestamp.le (ts.foldl tmin t) u := by
  induction ts generalizing t with
  | nil => exact ⟨Timestamp.le_refl t, by intro u hu; cases hu⟩
  | cons v ts ih =>
    simp only [List.foldl_cons]
    obtain ⟨h1, h2⟩ := ih (tmin t v)
    refine ⟨Timestamp.le_trans h1 (tmin_le_left t v), ?_⟩
    intro u hu
    rcases List.mem_cons.mp hu with rfl | hu
    · exact Timestamp.le_trans h1 (tmin_le_right t u)
    · exact h2 u hu

theorem listMin_spec (l : List Timestamp) (t : Timestamp)
    (h : listMin l = some t) : t ∈ l ∧ ∀ u ∈ l, Timestamp.le t u := by
  cases l with
  | nil => cases h
  | cons v ts =>
    simp only [listMin, Option.some.injEq] at h
    subst h
    constructor
    · rcases foldl_tmin_mem ts v with h | h
      · simp [h]
      · simp [h]
    · intro u hu
      obtain ⟨h1, h2⟩ := foldl_tmin_le ts v
      rcases List.mem_cons.mp hu with rfl | hu
      · exact h1
      · exact h2 u hu

theorem listMin_eq_none_iff (l : List Timestamp) :
    listMin l = none ↔ l = [] := by
  cases l <;> simp [listMin]

theorem listMin_append_one (xs : List Timestamp) (t : Timestamp) :
    listMin (xs ++ [t]) =
      some (match listMin xs with
            | none => t
            | some m => tmin m t) := by
  cases xs with
  | nil => rfl
  | cons v ts => simp [listMin, List.foldl_append]

/-! ### Pass 1: the grouped minima and the month mapping -/

def datesOfRaw (recs : List BRecord) (k : String) : List Timestamp :=
  (recs.filter (fun r => decide (r.invoiceNo = k))).map
    (fun r => r.invoiceDate)

def datesOfTrim (recs : List BRecord) (q : String) : List Timestamp :=
  (recs.filter (fun r => decide (pyStrip r.invoiceNo = q))).map
    (fun r => r.invoiceDate)

theorem groupMinDates_lookup (recs : List BRecord) (k : String) :
    lookupA (groupMinDates recs) k = listMin (datesOfRaw recs k) := by
  induction recs using List.reverseRecOn with
  | nil => rfl
  | append_singleton rs r ih =>
    have hg : groupMinDates (rs ++ [r]) = gStep (groupMinDates rs) r := by
      unfold groupMinDates
      rw [List.foldl_append]
      rfl
    rw [hg]
    unfold gStep
    by_cases hk : r.invoiceNo = k
    · subst hk
      have hd : datesOfRaw (rs ++ [r]) r.invoiceNo =
          datesOfRaw rs r.invoiceNo ++ [r.invoiceDate] := by
        unfold datesOfRaw
        rw [List.filter_append, List.map_append]
        simp
      rw [hd, listMin_append_one]
      cases hlk : lookupA (groupMinDates rs) r.invoiceNo with
      | some t =>
        rw [lookupA_updateA_self _ _ _ (by simp [hlk])]
        rw [hlk] at ih
        rw [← ih]
      | none =>
        rw [hlk] at ih
        rw [lookupA_append, hlk, ← ih]
        simp [lookupA]
    · have hd : datesOfRaw (rs ++ [r]) k = datesOfRaw rs k := by
        unfold datesOfRaw
        rw [List.filter_append, List.map_append]
        simp [hk]
      rw [hd]
      have hne : k ≠ r.invoiceNo := fun he => hk he.symm
      cases hlk : lookupA (groupMinDates rs) r.invoiceNo with
      | some t =>
        rw [lookupA_updateA_ne _ _ _ _ hne]
        exact ih
      | none =>
        rw [lookupA_append]
        cases hlk2 : lookupA (groupMinDates rs) k with
        | some v =>
          rw [hlk2] at ih
          simp only [hlk2]
          exact ih
        | none =>
          rw [hlk2] at ih
          simp only [hlk2]
          simp [lookupA, hk, ← ih]

theorem groupMinDates_keys_mem (recs : List BRecord) (k : String) :
    k ∈ (groupMinDates recs).map Prod.fst ↔
      ∃ r ∈ recs, r.invoiceNo = k := by
  constructor
  · intro hk
    by_contra hno
    have hnone : lookupA (groupMinDates recs) k = none := by
      rw [groupMinDates_lookup, listMin_eq_none_iff]
      unfold datesOfRaw
      rw [List.map_eq_nil_iff, List.filter_eq_nil_iff]
      intro r hr
      simp only [decide_eq_true_eq]
      exact fun he => hno ⟨r, hr, he⟩
    exact ((lookupA_eq_none_iff _ _).mp hnone) hk
  · intro ⟨r, hr, he⟩
    by_contra hk
    have hnone : lookupA (groupMinDates recs) k = none :=
      (lookupA_eq_none_iff _ _).mpr hk
    rw [groupMinDates_lookup, listMin_eq_none_iff] at hnone
    unfold datesOfRaw at hnone
    rw [List.map_eq_nil_iff, List.filter_eq_nil_iff] at hnone
    exact hnone r hr (by simp [he])

theorem groupMinDates_keys_nodup (recs : List BRecord) :
    ((groupMinDates recs).map Prod.fst).Nodup := by
  induction recs using List.reverseRecOn with
  | nil => exact List.nodup_nil
  | append_singleton rs r ih =>
    have hg : groupMinDates (rs ++ [r]) = gStep (groupMinDates rs) r := by
      unfold groupMinDates
      rw [List.foldl_append]
      rfl
    rw [hg]
    unfold gStep
    cases hlk : lookupA (groupMinDates rs) r.invoiceNo with
    | some t => rw [updateA_map_fst]; exact ih
    | none =>
      have hnot : r.invoiceNo ∉ (groupMinDates rs).map Prod.fst :=
        (lookupA_eq_none_iff _ _).mp hlk
      rw [List.map_append]
      simp [List.nodup_append, ih, hnot]

theorem insertSorted_perm (x : String × Timestamp)
    (l : List (String × Timestamp)) :
    (insertSorted x l).Perm (x :: l) := by
  induction l with
  | nil => exact List.Perm.refl _
  | cons y ys ih =>
    unfold insertSorted
    split
    · exact List.Perm.refl _
    · exact (ih.cons y).trans (List.Perm.swap x y ys)

theorem sortByKey_perm (l : List (String × Timestamp)) :
    (sortByKey l).Perm l := by
  induction l with
  | nil => exact List.Perm.refl _
  | cons x xs ih =>
    unfold sortByKey at ih ⊢
    exact (insertSorted_perm x (xs.foldr insertSorted [])).trans (ih.cons x)

theorem lookupA_eq_some_iff_mem {κ α : Type} [DecidableEq κ]
    (d : List (κ × α)) (hnd : (d.map Prod.fst).Nodup) (q : κ) (v : α) :
    lookupA d q = some v ↔ (q, v) ∈ d := by
  induction d with
  | nil => simp [lookupA]
  | cons kv d ih =>
    obtain ⟨k, w⟩ := kv
    simp only [List.map_cons, List.nodup_cons] at hnd
    by_cases hk : k = q
    · subst hk
      have hred : lookupA ((k, w) :: d) k = some w := by
        unfold lookupA
        rw [if_pos rfl]
      rw [hred]
      constructor
      · intro h
        have hv : w = v := Option.some.inj h
        exact List.mem_cons.mpr (Or.inl (by rw [hv]))
      · intro h
        rcases List.mem_cons.mp h with he | hm
        · injection he with h1 h2
          rw [h2]
        · exact absurd (List.mem_map_of_mem Prod.fst hm) hnd.1
    · have hqk : ¬(q, v) = (k, w) := fun he => hk (by cases he; rfl)
      simp only [lookupA, if_neg hk, List.mem_cons]
      rw [ih hnd.2]
      exact ⟨fun h => Or.inr h, fun h => h.resolve_left hqk⟩

theorem lookupA_some_mem_values {κ α : Type} [DecidableEq κ]
    (d : List (κ × α)) (q : κ) (v : α) (h : lookupA d q = some v) :
    v ∈ d.map Prod.snd := by
  induction d with
  | nil => cases h
  | cons kv d ih =>
    obtain ⟨k, w⟩ := kv
    by_cases hk : k = q
    · simp only [lookupA, if_pos hk, Option.some.injEq] at h
      simp [h]
    · simp only [lookupA, if_neg hk] at h
      simp [ih h]

theorem foldl_setA_of_nodup {κ α : Type} [DecidableEq κ]
    (L : List (κ × α)) (acc : List (κ × α))
    (hnd : (L.map Prod.fst).Nodup)
    (hdisj : ∀ k ∈ L.map Prod.fst, lookupA acc k = none) :
    L.foldl (fun d kv => setA d kv.1 kv.2) acc = acc ++ L := by
  induction L generalizing acc with
  | nil => simp
  | cons kv L ih =>
    obtain ⟨k, v⟩ := kv
    simp only [List.map_cons, List.nodup_cons] at hnd
    have hka : lookupA acc k = none := hdisj k (by simp)
    have hstep : setA acc k v = acc ++ [(k, v)] := by
      unfold setA
      simp [hka]
    simp only [List.foldl_cons, hstep]
    rw [ih (acc ++ [(k, v)]) hnd.2]
    · simp
    · intro k2 hk2
      rw [lookupA_append]
      have h1 : lookupA acc k2 = none := hdisj k2 (by simp [hk2])
      have hne : k ≠ k2 := fun he => hnd.1 (he ▸ hk2)
      simp [h1, lookupA, hne]

theorem invoice_to_month_lookup (recs : List BRecord)
    (hinj : ∀ r1 ∈ recs, ∀ r2 ∈ recs,
      pyStrip r1.invoiceNo = pyStrip r2.invoiceNo → r1.invoiceNo = r2.invoiceNo)
    (q : String) :
    lookupA (invoice_to_month recs) q =
      (listMin (datesOfTrim recs q)).map period := by
  have hkeysnd : ((groupMinDates recs).map Prod.fst).Nodup :=
    groupMinDates_keys_nodup recs
  have hkeymem : ∀ k, k ∈ (groupMinDates recs).map Prod.fst ↔
      ∃ r ∈ recs, r.invoiceNo = k :=
    fun k => groupMinDates_keys_mem recs k
  have htrimnd : (((groupMinDates recs).map Prod.fst).map pyStrip).Nodup := by
    apply hkeysnd.map_on
    intro x hx y hy hxy
    obtain ⟨r1, hr1, he1⟩ := (hkeymem x).mp hx
    obtain ⟨r2, hr2, he2⟩ := (hkeymem y).mp hy
    have hee := hinj r1 hr1 r2 hr2 (by rw [he1, he2]; exact hxy)
    rw [← he1, ← he2, hee]
  have hGkeys2 : ((groupMinDates recs).map
      (fun kv => (pyStrip kv.1, period kv.2))).map Prod.fst =
      ((groupMinDates recs).map Prod.fst).map pyStrip := by
    simp [List.map_map, Function.comp]
  have hGnd2 : (((groupMinDates recs).map
      (fun kv => (pyStrip kv.1, period kv.2))).map Prod.fst).Nodup := by
    rw [hGkeys2]
    exact htrimnd
  have hperm : (sortByKey (groupMinDates recs)).Perm (groupMinDates recs) :=
    sortByKey_perm _
  have hpermL : ((sortByKey (groupMinDates recs)).map
      (fun kv => (pyStrip kv.1, period kv.2))).Perm
      ((groupMinDates recs).map (fun kv => (pyStrip kv.1, period kv.2))) :=
    hperm.map _
  have hLkeys : (((sortByKey (groupMinDates recs)).map
      (fun kv => (pyStrip kv.1, period kv.2))).map Prod.fst).Perm
      (((groupMinDates recs).map
        (fun kv => (pyStrip kv.1, period kv.2))).map Prod.fst) :=
    hpermL.map _
  have hLnd : (((sortByKey (groupMinDates recs)).map
      (fun kv => (pyStrip kv.1, period kv.2))).map Prod.fst).Nodup :=
    hLkeys.nodup_iff.mpr hGnd2
  have hfold : ∀ (S : List (String × Timestamp))
      (acc : List (String × (ℕ × ℕ))),
      S.foldl (fun d kv => setA d (pyStrip kv.1) (period kv.2)) acc =
        (S.map (fun kv => (pyStrip kv.1, period kv.2))).foldl
          (fun d kv => setA d kv.1 kv.2) acc := by
    intro S
    induction S with
    | nil => intro acc; rfl
    | cons kv S ih => intro acc; simp [List.foldl_cons, ih]
  have hdict : invoice_to_month recs =
      (sortByKey (groupMinDates recs)).map
        (fun kv => (pyStrip kv.1, period kv.2)) := by
    unfold invoice_to_month
    rw [hfold, foldl_setA_of_nodup _ [] hLnd (fun k _ => rfl)]
    simp
  rw [hdict]
  by_cases hq : ∃ k0 ∈ (groupMinDates recs).map Prod.fst, pyStrip k0 = q
  · obtain ⟨k0, hk0, htr⟩ := hq
    obtain ⟨r0, hr0, he0⟩ := (hkeymem k0).mp hk0
    have hdates : datesOfTrim recs q = datesOfRaw recs k0 := by
      unfold datesOfTrim datesOfRaw
      congr 1
      apply List.filter_congr
      intro r hr
      simp only [decide_eq_decide]
      constructor
      · intro hrq
        have hr0q : pyStrip r0.invoiceNo = q := by rw [he0]; exact htr
        have := hinj r hr r0 hr0 (hrq.trans hr0q.symm)
        rw [this, he0]
      · intro hre
        rw [hre]
        exact htr
    have hnonempty : datesOfRaw recs k0 ≠ [] := by
      unfold datesOfRaw
      simp only [ne_eq, List.map_eq_nil_iff, List.filter_eq_nil_iff]
      intro hall
      exact hall r0 hr0 (by simp [he0])
    obtain ⟨t0, ht0⟩ : ∃ t0, listMin (datesOfRaw recs k0) = some t0 := by
      cases hlm : listMin (datesOfRaw recs k0) with
      | none => exact absurd ((listMin_eq_none_iff _).mp hlm) hnonempty
      | some t => exact ⟨t, rfl⟩
    have hlkG : lookupA (groupMinDates recs) k0 = some t0 :=
      (groupMinDates_lookup recs k0).trans ht0
    have hmemG : (k0, t0) ∈ groupMinDates recs :=
      (lookupA_eq_some_iff_mem _ hkeysnd k0 t0).mp hlkG
    have hmemG2 : (q, period t0) ∈ (groupMinDates recs).map
        (fun kv => (pyStrip kv.1, period kv.2)) := by
      refine List.mem_map.mpr ⟨(k0, t0), hmemG, ?_⟩
      simp [htr]
    have hmemL : (q, period t0) ∈ (sortByKey (groupMinDates recs)).map
        (fun kv => (pyStrip kv.1, period kv.2)) :=
      hpermL.mem_iff.mpr hmemG2
    have hlkL : lookupA ((sortByKey (groupMinDates recs)).map
        (fun kv => (pyStrip kv.1, period kv.2))) q = some (period t0) :=
      (lookupA_eq_some_iff_mem _ hLnd q _).mpr hmemL
    rw [hlkL, hdates, ht0]
    rfl
  · push_neg at hq
    have hdts : datesOfTrim recs q = [] := by
      unfold datesOfTrim
      simp only [List.map_eq_nil_iff, List.filter_eq_nil_iff]
      intro r hr
      simp only [decide_eq_true_eq]
      intro hrq
      have hkmem : r.invoiceNo ∈ (groupMinDates recs).map Prod.fst :=
        (hkeymem _).mpr ⟨r, hr, rfl⟩
      exact hq r.invoiceNo hkmem hrq
    have hnot : q ∉ ((sortByKey (groupMinDates recs)).map
        (fun kv => (pyStrip kv.1, period kv.2))).map Prod.fst := by
      intro hmem
      have hmem2 : q ∈ ((groupMinDates recs).map
          (fun kv => (pyStrip kv.1, period kv.2))).map Prod.fst :=
        hLkeys.mem_iff.mp hmem
      rw [hGkeys2] at hmem2
      obtain ⟨k0, hk0, htr⟩ := List.mem_map.mp hmem2
      exact hq k0 hk0 htr
    rw [(lookupA_eq_none_iff _ _).mpr hnot, hdts]
    rfl

theorem month_mem_unique_months (recs : List BRecord) (q : String)
    (m : ℕ × ℕ) (h : lookupA (invoice_to_month recs) q = some m) :
    m ∈ unique_months recs := by
  unfold unique_months
  rw [mem_dedupSet]
  exact lookupA_some_mem_values _ _ _ h

/-! ### Pass 2: streaming the matrix rows into the batch files -/

theorem stepRow_char (mapping : List (String × (ℕ × ℕ)))
    (months : List (ℕ × ℕ)) (st : BatchResult) (row : List String) :
    (stepRow mapping months st row).partitions =
      (match routeTarget mapping months row with
       | some m => appendRow st.partitions m row
       | none => st.partitions) ∧
    (stepRow mapping months st row).totalRows =
      st.totalRows + (if row.head?.isSome then 1 else 0) ∧
    (stepRow mapping months st row).matchedRows =
      st.matchedRows +
        (if (routeTarget mapping months row).isSome then 1 else 0) ∧
    (stepRow mapping months st row).unmatchedInvoices =
      (if row.head?.isSome ∧ routeTarget mapping months row = none then
        insertNew st.unmatchedInvoices (rowKey row)
       else st.unmatchedInvoices) := by
  cases row with
  | nil => simp [stepRow, routeTarget, rowKey]
  | cons s rest =>
    by_cases hs : s = ""
    · subst hs
      simp [stepRow, routeTarget, rowKey]
    · by_cases hps : pyStrip s = ""
      · simp [stepRow, routeTarget, rowKey, hs, hps]
      · cases hlk : lookupA mapping (pyStrip s) with
        | some m =>
          by_cases hm : m ∈ months <;>
            simp [stepRow, routeTarget, rowKey, hs, hps, hlk, hm]
        | none => simp [stepRow, routeTarget, rowKey, hs, hps, hlk]

theorem foldl_stepRow_partitions (mapping : List (String × (ℕ × ℕ)))
    (months : List (ℕ × ℕ)) (rows : List (List String)) :
    ∀ st : BatchResult,
      (rows.foldl (stepRow mapping months) st).partitions =
        st.partitions.map (fun p => (p.1, p.2 ++
          rows.filter
            (fun row => decide (routeTarget mapping months row = some p.1)))) := by
  induction rows with
  | nil =>
    intro st
    simp
  | cons r rows ih =>
    intro st
    rw [List.foldl_cons, ih]
    have hpart := (stepRow_char mapping months st r).1
    cases ht : routeTarget mapping months r with
    | none =>
      rw [ht] at hpart
      rw [hpart]
      apply List.map_congr_left
      intro p _
      have hdec : decide (routeTarget mapping months r = some p.1) = false := by
        simp [ht]
      simp [List.filter_cons, hdec]
    | some m =>
      rw [ht] at hpart
      rw [hpart]
      unfold appendRow
      rw [List.map_map]
      apply List.map_congr_left
      intro p _
      by_cases hpm : p.1 = m
      · have hdec : decide (routeTarget mapping months r = some p.1) = true := by
          simp [ht, hpm]
        simp [Function.comp, hpm, List.filter_cons, hdec, ht]
      · have hdec : decide (routeTarget mapping months r = some p.1) = false := by
          simp [ht]
          exact fun he => hpm he.symm
        simp [Function.comp, hpm, List.filter_cons, hdec]

theorem foldl_stepRow_totalRows (mapping : List (String × (ℕ × ℕ)))
    (months : List (ℕ × ℕ)) (rows : List (List String)) :
    ∀ st : BatchResult,
      (rows.foldl (stepRow mapping months) st).totalRows =
        st.totalRows + rows.countP (fun row => row.head?.isSome) := by
  induction rows with
  | nil => intro st; simp
  | cons r rows ih =>
    intro st
    rw [List.foldl_cons, ih, (stepRow_char mapping months st r).2.1,
      List.countP_cons]
    cases hh : r.head?.isSome <;> (simp [hh]; try omega)

theorem foldl_stepRow_matchedRows (mapping : List (String × (ℕ × ℕ)))
    (months : List (ℕ × ℕ)) (rows : List (List String)) :
    ∀ st : BatchResult,
      (rows.foldl (stepRow mapping months) st).matchedRows =
        st.matchedRows +
          rows.countP (fun row => (routeTarget mapping months row).isSome) := by
  induction rows with
  | nil => intro st; simp
  | cons r rows ih =>
    intro st
    rw [List.foldl_cons, ih, (stepRow_char mapping months st r).2.2.1,
      List.countP_cons]
    cases hh : (routeTarget mapping months r).isSome <;> (simp [hh]; try omega)

theorem foldl_stepRow_unmatched (mapping : List (String × (ℕ × ℕ)))
    (months : List (ℕ × ℕ)) (rows : List (List String)) :
    ∀ st : BatchResult,
      (rows.foldl (stepRow mapping months) st).unmatchedInvoices =
        ((rows.filter (fun row => row.head?.isSome &&
            decide (routeTarget mapping months row = none))).map
          rowKey).foldl insertNew st.unmatchedInvoices := by
  induction rows with
  | nil => intro st; simp
  | cons r rows ih =>
    intro st
    rw [List.foldl_cons, ih, (stepRow_char mapping months st r).2.2.2]
    by_cases hc : r.head?.isSome = true ∧ routeTarget mapping months r = none
    · have hb : (r.head?.isSome &&
          decide (routeTarget mapping months r = none)) = true := by
        simp [hc.1, hc.2]
      rw [if_pos hc]
      simp [List.filter_cons, hb]
    · have hb : (r.head?.isSome &&
          decide (routeTarget mapping months r = none)) = false := by
        rw [Bool.eq_false_iff]
        simp only [ne_eq, Bool.and_eq_true, decide_eq_true_eq]
        exact hc
      rw [if_neg hc]
      simp [List.filter_cons, hb]

/-! ### Counting helpers for the partition-completeness analysis -/

theorem sum_map_const_zero {α : Type} (l : List α) :
    (l.map (fun _ => (0 : ℕ))).sum = 0 := by
  induction l <;> simp [*]

theorem sum_map_add_distrib {α : Type} (l : List α) (f g : α → ℕ) :
    (l.map (fun x => f x + g x)).sum = (l.map f).sum + (l.map g).sum := by
  induction l with
  | nil => rfl
  | cons x l ih =>
    simp only [List.map_cons, List.sum_cons, ih]
    omega

theorem sum_indicator_not_mem {β : Type} [DecidableEq β] (ms : List β)
    (b : β) (hb : b ∉ ms) :
    (ms.map (fun m => if b = m then 1 else 0)).sum = 0 := by
  induction ms with
  | nil => rfl
  | cons m ms ih =>
    simp only [List.mem_cons, not_or] at hb
    simp [hb.1, ih hb.2]

theorem sum_indicator_nodup {β : Type} [DecidableEq β] (ms : List β) (b : β)
    (hnd : ms.Nodup) (hb : b ∈ ms) :
    (ms.map (fun m => if b = m then 1 else 0)).sum = 1 := by
  induction ms with
  | nil => cases hb
  | cons m ms ih =>
    simp only [List.nodup_cons] at hnd
    rcases List.mem_cons.mp hb with rfl | hb2
    · simp [sum_indicator_not_mem ms b hnd.1]
    · have hbm : b ≠ m := fun he => hnd.1 (he ▸ hb2)
      simp [hbm, ih hnd.2 hb2]

theorem sum_map_countP_eq {α β : Type} [DecidableEq β] (f : α → Option β)
    (l : List α) (ms : List β) (hnd : ms.Nodup)
    (hall : ∀ a ∈ l, ∀ b, f a = some b → b ∈ ms) :
    (ms.map (fun m => l.countP (fun a => decide (f a = some m)))).sum =
      l.countP (fun a => (f a).isSome) := by
  induction l with
  | nil => simp [sum_map_const_zero]
  | cons a l ih =>
    have hall2 : ∀ x ∈ l, ∀ b, f x = some b → b ∈ ms :=
      fun x hx => hall x (by simp [hx])
    simp only [List.countP_cons]
    rw [sum_map_add_distrib ms _ _, ih hall2]
    congr 1
    cases hfa : f a with
    | none => simp [hfa, sum_map_const_zero]
    | some b =>
      have hbm : b ∈ ms := hall a (by simp) b hfa
      have hrw : (ms.map
          (fun m => if decide ((some b : Option β) = some m) then 1 else 0)) =
          ms.map (fun m => if b = m then 1 else 0) := by
        apply List.map_congr_left
        intro m _
        simp
      rw [hrw, sum_indicator_nodup ms b hnd hbm]
      rfl

theorem routeTarget_mem_months (mapping : List (String × (ℕ × ℕ)))
    (months : List (ℕ × ℕ)) (row : List String) (m : ℕ × ℕ)
    (h : routeTarget mapping months row = some m) : m ∈ months := by
  cases row with
  | nil => simp [routeTarget] at h
  | cons s rest =>
    by_cases hs : s = ""
    · simp [routeTarget, hs] at h
    · by_cases hps : pyStrip s = ""
      · simp [routeTarget, hs, hps] at h
      · cases hlk : lookupA mapping (pyStrip s) with
        | none => simp [routeTarget, hs, hps, hlk] at h
        | some m2 =>
          by_cases hm : m2 ∈ months
          · simp [routeTarget, hs, hps, hlk, hm] at h
            exact h ▸ hm
          · simp [routeTarget, hs, hps, hlk, hm] at h

theorem routeTarget_head_isSome (mapping : List (String × (ℕ × ℕ)))
    (months : List (ℕ × ℕ)) (row : List String) (m : ℕ × ℕ)
    (h : routeTarget mapping months row = some m) :
    row.head?.isSome = true := by
  cases row with
  | nil => simp [routeTarget] at h
  | cons s rest => rfl

theorem countP_route_split (mapping : List (String × (ℕ × ℕ)))
    (months : List (ℕ × ℕ)) (rows : List (List String)) :
    rows.countP (fun row => (routeTarget mapping months row).isSome) +
      rows.countP (fun row => row.head?.isSome &&
        decide (routeTarget mapping months row = none)) =
      rows.countP (fun row => row.head?.isSome) := by
  induction rows with
  | nil => rfl
  | cons r rows ih =>
    simp only [List.countP_cons]
    cases ht : routeTarget mapping months r with
    | some m =>
      have hh := routeTarget_head_isSome mapping months r m ht
      simp only [ht, hh]
      simp
      omega
    | none =>
      cases hh : r.head?.isSome <;> (simp only [ht, hh]; simp; omega)

theorem lookupA_map_fn {κ α : Type} [DecidableEq κ] (ms : List κ)
    (g : κ → α) (q : κ) (hq : q ∈ ms) :
    lookupA (ms.map (fun m => (m, g m))) q = some (g q) := by
  induction ms with
  | nil => cases hq
  | cons m ms ih =>
    by_cases hm : m = q
    · subst hm
      simp [lookupA]
    · have hq2 : q ∈ ms := by
        rcases List.mem_cons.mp hq with he | h
        · exact absurd he.symm hm
        · exact h
      simp [lookupA, hm, ih hq2]

/-- The result of the streaming pass, stage by stage: each month's batch
file is the header followed by the matrix rows routed to it, in input
order; the totals count the non-empty rows; the matched counter counts the
routed rows; the unmatched set holds the distinct normalized keys of the
non-empty unrouted rows. -/
theorem runBatches_spec (recs : List BRecord)
    (header : List String) (rows : List (List String)) :
    (runBatches recs header rows).partitions =
      (unique_months recs).map (fun m => (m, header ::
        rows.filter (fun row => decide (routeTarget (invoice_to_month recs)
          (unique_months recs) row = some m)))) ∧
    (runBatches recs header rows).totalRows =
      rows.countP (fun row => row.head?.isSome) ∧
    (runBatches recs header rows).matchedRows =
      rows.countP (fun row => (routeTarget (invoice_to_month recs)
        (unique_months recs) row).isSome) ∧
    (runBatches recs header rows).unmatchedInvoices =
      dedupSet ((rows.filter (fun row => row.head?.isSome &&
        decide (routeTarget (invoice_to_month recs)
          (unique_months recs) row = none))).map rowKey) := by
  refine ⟨?_, ?_, ?_, ?_⟩
  · rw [runBatches, foldl_stepRow_partitions, List.map_map]
    apply List.map_congr_left
    intro m _
    simp [Function.comp]
  · rw [runBatches, foldl_stepRow_totalRows]
    simp
  · rw [runBatches, foldl_stepRow_matchedRows]
    simp
  · rw [runBatches, foldl_stepRow_unmatched]
    rfl

theorem create_monthly_batches_eq_some (recs : List BRecord)
    (header : List String) (rows : List (List String))
    (res : BatchResult)
    (h : create_monthly_batches recs header rows = some res) :
    res = runBatches recs header rows := by
  unfold create_monthly_batches at h
  split at h
  · cases h
  · exact (Option.some.inj h).symm

/-- Claim C3: a matrix row whose (non-empty) transaction key, after
stripping, matches records of the cleaned data — with every cleaned
record's invoice id non-blank and stripping injective on the invoice ids
present, both guaranteed for the cleaned table by the filter's blank-id
rule — is appended verbatim to the partition keyed by the calendar month
of the earliest timestamp among all cleaned records sharing that
(stripped) transaction id, and that partition file carries the same header
as the matrix artifact. -/
theorem create_monthly_batches_routes_by_earliest_month
    (recs : List BRecord) (header : List String) (rows : List (List String))
    (row : List String) (s : String)
    (hinj : ∀ r1 ∈ recs, ∀ r2 ∈ recs,
      pyStrip r1.invoiceNo = pyStrip r2.invoiceNo → r1.invoiceNo = r2.invoiceNo)
    (hclean : ∀ r ∈ recs, pyStrip r.invoiceNo ≠ "")
    (hrow : row ∈ rows) (hhead : row.head? = some s) (hs : s ≠ "")
    (hshare : datesOfTrim recs (pyStrip s) ≠ []) :
    ∃ t, t ∈ datesOfTrim recs (pyStrip s) ∧
      (∀ u ∈ datesOfTrim recs (pyStrip s), Timestamp.le t u) ∧
      ∃ res, create_monthly_batches recs header rows = some res ∧
        ∃ content,
          lookupA res.partitions (period t) = some content ∧
          row ∈ content ∧ content.head? = some header := by
  obtain ⟨t0, ht0⟩ : ∃ t0, listMin (datesOfTrim recs (pyStrip s)) = some t0 := by
    cases hlm : listMin (datesOfTrim recs (pyStrip s)) with
    | none => exact absurd ((listMin_eq_none_iff _).mp hlm) hshare
    | some t => exact ⟨t, rfl⟩
  obtain ⟨hmem, hmin⟩ := listMin_spec _ t0 ht0
  refine ⟨t0, hmem, hmin, ?_⟩
  have hps : pyStrip s ≠ "" := by
    obtain ⟨r, hr, hre⟩ : ∃ r ∈ recs, pyStrip r.invoiceNo = pyStrip s := by
      by_contra hno
      push_neg at hno
      apply hshare
      unfold datesOfTrim
      rw [List.map_eq_nil_iff, List.filter_eq_nil_iff]
      intro r hr
      simp only [decide_eq_true_eq]
      exact hno r hr
    rw [← hre]
    exact hclean r hr
  have hlk : lookupA (invoice_to_month recs) (pyStrip s) = some (period t0) := by
    rw [invoice_to_month_lookup recs hinj (pyStrip s), ht0]
    rfl
  have hmm : period t0 ∈ unique_months recs :=
    month_mem_unique_months recs (pyStrip s) _ hlk
  have hne : unique_months recs ≠ [] := List.ne_nil_of_mem hmm
  have hsome : create_monthly_batches recs header rows =
      some (runBatches recs header rows) := by
    unfold create_monthly_batches
    rw [if_neg hne]
  refine ⟨runBatches recs header rows, hsome, ?_⟩
  have htarget : routeTarget (invoice_to_month recs) (unique_months recs)
      row = some (period t0) := by
    cases row with
    | nil => cases hhead
    | cons s2 rest =>
      have hs2 : s2 = s := by
        simpa using hhead
      subst hs2
      simp [routeTarget, hs, hps, hlk, hmm]
  have hp := (runBatches_spec recs header rows).1
  refine ⟨header :: rows.filter (fun row2 =>
    decide (routeTarget (invoice_to_month recs) (unique_months recs) row2 =
      some (period t0))), ?_, ?_, rfl⟩
  · rw [hp]
    exact lookupA_map_fn (unique_months recs) _ (period t0) hmm
  · refine List.mem_cons.mpr (Or.inr ?_)
    refine List.mem_filter.mpr ⟨hrow, ?_⟩
    simp [htarget]

theorem create_monthly_batches_routes_witness :
    (∀ r1 ∈ [BRecord.mk "T1" (Timestamp.mk 2010 12 5)],
      ∀ r2 ∈ [BRecord.mk "T1" (Timestamp.mk 2010 12 5)],
      pyStrip r1.invoiceNo = pyStrip r2.invoiceNo → r1.invoiceNo = r2.invoiceNo) ∧
    (∀ r ∈ [BRecord.mk "T1" (Timestamp.mk 2010 12 5)],
      pyStrip r.invoiceNo ≠ "") ∧
    (["T1", "1"] ∈ [["T1", "1"]]) ∧
    (["T1", "1"].head? = some "T1") ∧
    ("T1" ≠ "") ∧
    (datesOfTrim [BRecord.mk "T1" (Timestamp.mk 2010 12 5)] (pyStrip "T1") ≠ []) ∧
    (∃ t, t ∈ datesOfTrim [BRecord.mk "T1" (Timestamp.mk 2010 12 5)]
        (pyStrip "T1") ∧
      (∀ u ∈ datesOfTrim [BRecord.mk "T1" (Timestamp.mk 2010 12 5)]
        (pyStrip "T1"), Timestamp.le t u) ∧
      ∃ res, create_monthly_batches
          [BRecord.mk "T1" (Timestamp.mk 2010 12 5)]
          ["InvoiceNo", "X"] [["T1", "1"]] = some res ∧
        ∃ content,
          lookupA res.partitions (period t) = some content ∧
          ["T1", "1"] ∈ content ∧
          content.head? = some ["InvoiceNo", "X"]) :=
  ⟨by decide, by decide, by decide, by decide, by decide, by decide,
   create_monthly_batches_routes_by_earliest_month
     [BRecord.mk "T1" (Timestamp.mk 2010 12 5)] ["InvoiceNo", "X"]
     [["T1", "1"]] ["T1", "1"] "T1" (by decide) (by decide) (by decide)
     (by decide) (by decide) (by decide)⟩

/-- Claim C4 counterexample: on a cleaned table with one invoice `"B"` the
run completes (the month list is non-empty), but both matrix rows carry the
unmatched key `"A"`, which the set of unmatched invoices reports once; the
partition row counts plus the reported unmatched count is 1, yet two data
rows were processed. -/
theorem partition_completeness_counterexample :
    create_monthly_batches [BRecord.mk "B" (Timestamp.mk 2010 12 1)]
        ["InvoiceNo"] [["A"], ["A"]] =
      some (runBatches [BRecord.mk "B" (Timestamp.mk 2010 12 1)]
        ["InvoiceNo"] [["A"], ["A"]]) ∧
    ((runBatches [BRecord.mk "B" (Timestamp.mk 2010 12 1)]
        ["InvoiceNo"] [["A"], ["A"]]).partitions.map
        (fun p => p.2.length - 1)).sum +
      (runBatches [BRecord.mk "B" (Timestamp.mk 2010 12 1)]
        ["InvoiceNo"] [["A"], ["A"]]).unmatchedInvoices.length ≠
      (runBatches [BRecord.mk "B" (Timestamp.mk 2010 12 1)]
        ["InvoiceNo"] [["A"], ["A"]]).totalRows := by
  refine ⟨by decide, by decide⟩

/-- Claim C4 amended: whenever the run completes (a non-empty month list —
an empty cleaned table instead crashes into the `None` error path before
any row is processed), the rows written across all partitions equal the
matched count, and matched plus the number of unmatched row *occurrences*
equals the total of processed (non-empty) data rows; unmatched rows are
skipped, never fatal, and reported via the set of *distinct* normalized
unmatched keys (so the reported count equals the unmatched row count only
when no key repeats among unmatched rows). -/
theorem partition_count_accounting (recs : List BRecord)
    (header : List String) (rows : List (List String)) (res : BatchResult)
    (h : create_monthly_batches recs header rows = some res) :
    (res.partitions.map (fun p => p.2.length - 1)).sum =
      res.matchedRows ∧
    res.matchedRows +
      rows.countP (fun row => row.head?.isSome &&
        decide (routeTarget (invoice_to_month recs) (unique_months recs)
          row = none)) =
      res.totalRows ∧
    res.totalRows = rows.countP (fun row => row.head?.isSome) ∧
    res.unmatchedInvoices =
      dedupSet ((rows.filter (fun row => row.head?.isSome &&
        decide (routeTarget (invoice_to_month recs) (unique_months recs)
          row = none))).map rowKey) ∧
    res.unmatchedInvoices.Nodup := by
  have hres := create_monthly_batches_eq_some recs header rows res h
  subst hres
  obtain ⟨hp, ht, hm, hu⟩ := runBatches_spec recs header rows
  refine ⟨?_, ?_, ht, hu, ?_⟩
  · rw [hp, hm, List.map_map]
    have hbody : ((fun p : (ℕ × ℕ) × List (List String) => p.2.length - 1) ∘
        (fun m => (m, header :: rows.filter (fun row =>
          decide (routeTarget (invoice_to_month recs) (unique_months recs)
            row = some m))))) =
        fun m => rows.countP (fun row =>
          decide (routeTarget (invoice_to_month recs) (unique_months recs)
            row = some m)) := by
      funext m
      simp [Function.comp, List.countP_eq_length_filter]
    rw [hbody]
    exact sum_map_countP_eq
      (routeTarget (invoice_to_month recs) (unique_months recs)) rows
      (unique_months recs) (nodup_dedupSet _)
      (fun a _ b hb => routeTarget_mem_months _ _ _ _ hb)
  · rw [hm, ht]
    exact countP_route_split _ _ rows
  · rw [hu]
    exact nodup_dedupSet _

theorem partition_count_accounting_witness :
    (create_monthly_batches [BRecord.mk "B" (Timestamp.mk 2010 12 1)]
        ["InvoiceNo"] [["B"], ["A"]] =
      some (runBatches [BRecord.mk "B" (Timestamp.mk 2010 12 1)]
        ["InvoiceNo"] [["B"], ["A"]])) ∧
    ((runBatches [BRecord.mk "B" (Timestamp.mk 2010 12 1)]
        ["InvoiceNo"] [["B"], ["A"]]).partitions.map
        (fun p => p.2.length - 1)).sum =
      (runBatches [BRecord.mk "B" (Timestamp.mk 2010 12 1)]
        ["InvoiceNo"] [["B"], ["A"]]).matchedRows :=
  ⟨by decide,
   (partition_count_accounting [BRecord.mk "B" (Timestamp.mk 2010 12 1)]
     ["InvoiceNo"] [["B"], ["A"]]
     (runBatches [BRecord.mk "B" (Timestamp.mk 2010 12 1)]
       ["InvoiceNo"] [["B"], ["A"]]) (by decide)).1⟩

end Retail
